import Mathlib

/-!
Verification development for the Scilla stake-wallet client.

The definitions below are a shallow embedding of the Rust sources:

* `src/misc/helpers.rs` — SOL/lamport amount conversion and parsing
  (`SolAmount::from_str`, `OptionalSolAmount::from_str`, `sol_to_lamports`,
  `lamports_to_sol`, `parse_sol_amount`);
* `src/commands/stake.rs` — the deactivate / withdraw / history stake
  operations (`process_deactivate_stake_account`, `process_withdraw_stake`,
  `process_stake_history`).

Rust `f64` values are modelled by `F64`: NaN, a signed infinity, or a finite
dyadic value `m * 2 ^ e` (every finite IEEE-754 double is such a dyadic
rational).  Arithmetic on finite values is exact rational arithmetic; the
real machine rounds products to 53 bits of mantissa, an effect this model
ignores.  Library calls that are external to the repository (the RPC client,
`bincode` deserialisation, Rust's `str::parse::<f64>`) are passed in as
explicit parameters, so each theorem quantifies over their possible results.
-/

namespace Scilla

/-- Model of a Rust `f64` value: NaN, an infinity, or the finite dyadic
rational `m * 2 ^ e`. -/
inductive F64 where
  | nan
  | inf (neg : Bool)
  | finite (m : ℤ) (e : ℤ)
deriving DecidableEq, Repr

namespace F64

/-- The rational value of a finite `F64` (junk value `0` for NaN and the
infinities; theorems always guard with `isFinite`). -/
def val : F64 → ℚ
  | nan => 0
  | inf _ => 0
  | finite m e => (m : ℚ) * 2 ^ e

/-- `f64::is_finite`. -/
def isFinite : F64 → Bool
  | finite _ _ => true
  | _ => false

/-- The Rust comparison `sol <= 0.0` (false when NaN, by IEEE semantics).
For a finite dyadic `m * 2 ^ e` the sign is the sign of `m`. -/
def leZero : F64 → Bool
  | nan => false
  | inf neg => neg
  | finite m _ => decide (m ≤ 0)

end F64

/-- Modelled from the spec: the fixed atomic-units-per-display-unit constant
`LAMPORTS_PER_SOL` lives in the repository's `constants` module, which is not
among the provided sources; the network's standard value `10^9` is used
(spec §4.1 and glossary: display unit = atomic units x fixed constant). -/
def LAMPORTS_PER_SOL : ℕ := 1000000000

/-- `u64::MAX`. -/
def U64_MAX : ℕ := 18446744073709551615

namespace F64

/-- The Rust product `sol * LAMPORTS_PER_SOL as f64`.  Since
`10^9 = 2^9 * 5^9`, a finite dyadic `m * 2^e` maps to the dyadic
`(m * 5^9) * 2^(e+9)`; NaN and infinities propagate as in IEEE arithmetic.
(The real machine additionally rounds the product to 53 mantissa bits.) -/
def mulLPS : F64 → F64
  | nan => nan
  | inf neg => inf neg
  | finite m e => finite (m * 5 ^ 9) (e + 9)

/-- The Rust comparison `lamports > u64::MAX as f64`.  The cast
`u64::MAX as f64` rounds `2^64 - 1` to the representable `2^64 =
18446744073709551616`, which is the constant compared against here.
NaN compares false; `+inf` compares true.  For a finite dyadic the
comparison is decided in exact integer arithmetic by clearing the
power of two. -/
def gtU64MaxF : F64 → Bool
  | nan => false
  | inf neg => !neg
  | finite m e =>
    if 0 ≤ e then decide ((18446744073709551616 : ℤ) < m * 2 ^ e.toNat)
    else decide (18446744073709551616 * 2 ^ (-e).toNat < m)

/-- The floor `⌊m * 2 ^ e⌋` of a dyadic rational, in integer arithmetic
(integer division by a positive power of two is floor division). -/
def dyadicFloor (m e : ℤ) : ℤ :=
  if 0 ≤ e then m * 2 ^ e.toNat else m / 2 ^ (-e).toNat

/-- The Rust saturating cast `as u64`: NaN maps to `0`, negative values clamp
to `0`, values above `u64::MAX` clamp to `u64::MAX`, and other finite values
truncate toward zero (which for positive values is the floor). -/
def toU64Sat : F64 → ℕ
  | nan => 0
  | inf neg => if neg then 0 else U64_MAX
  | finite m e =>
    if m ≤ 0 then 0 else min (dyadicFloor m e).toNat U64_MAX

end F64

/-- `sol_to_lamports` (`helpers.rs`): `(sol * LAMPORTS_PER_SOL as f64) as u64`. -/
def sol_to_lamports (sol : F64) : ℕ :=
  sol.mulLPS.toU64Sat

/-- `lamports_to_sol` (`helpers.rs`): `lamports as f64 / LAMPORTS_PER_SOL as f64`
(idealised as exact rational division). -/
def lamports_to_sol (lamports : ℕ) : ℚ :=
  (lamports : ℚ) / (LAMPORTS_PER_SOL : ℚ)

/-- ASCII core of the whitespace class trimmed by Rust's `str::trim`. -/
def isRustWhitespace (c : Char) : Bool :=
  c = ' ' || c = '\t' || c = '\n' || c = '\r'

/-- Rust's `str::trim`: drop whitespace from both ends. -/
def rustTrim (s : String) : String :=
  String.mk (((s.toList.dropWhile isRustWhitespace).reverse.dropWhile
    isRustWhitespace).reverse)

/-- The distinct failure messages of the amount parsers in `helpers.rs`. -/
inductive AmountErr where
  | empty
  | invalid
  | nonPositive
  | notFinite
  | overflow
deriving DecidableEq, Repr

/-- `SolAmount::from_str` (`helpers.rs`).  `parse` stands for Rust's external
`str::parse::<f64>` (`none` for an unparseable string). -/
def SolAmount.from_str (parse : String → Option F64) (s : String) :
    Except AmountErr F64 :=
  let trimmed := rustTrim s
  if trimmed = "" then .error .empty
  else
    match parse trimmed with
    | none => .error .invalid
    | some sol =>
      if sol.leZero then .error .nonPositive
      else if !sol.isFinite then .error .notFinite
      else if sol.mulLPS.gtU64MaxF then .error .overflow
      else .ok sol

/-- `OptionalSolAmount::from_str` (`helpers.rs`): as `SolAmount::from_str`,
except that an empty (trimmed) input is the valid `none` result. -/
def OptionalSolAmount.from_str (parse : String → Option F64) (s : String) :
    Except AmountErr (Option F64) :=
  let trimmed := rustTrim s
  if trimmed = "" then .ok none
  else
    match parse trimmed with
    | none => .error .invalid
    | some sol =>
      if sol.leZero then .error .nonPositive
      else if !sol.isFinite then .error .notFinite
      else if sol.mulLPS.gtU64MaxF then .error .overflow
      else .ok (some sol)

/-- `parse_sol_amount` (`helpers.rs`): empty input yields `0` lamports, any
parseable input is converted by `sol_to_lamports` with no positivity or
overflow check. -/
def parse_sol_amount (parse : String → Option F64) (amount_str : String) :
    Except AmountErr ℕ :=
  let trimmed := rustTrim amount_str
  if trimmed = "" then .ok 0
  else
    match parse trimmed with
    | none => .error .invalid
    | some sol => .ok (sol_to_lamports sol)

/-! ## Stake-account data model (`solana_stake_interface::state::StakeStateV2`,
restricted to the fields `stake.rs` reads). -/

/-- Public keys are opaque identifiers; only equality is used. -/
abbrev Pubkey := ℕ

/-- Transaction signatures are opaque; only returned on success. -/
abbrev Signature := ℕ

/-- The two authority roles of a stake account's metadata. -/
structure Authorized where
  staker : Pubkey
  withdrawer : Pubkey
deriving DecidableEq, Repr

/-- Stake-account metadata (only the `authorized` field is read). -/
structure Meta where
  authorized : Authorized
deriving DecidableEq, Repr

/-- A delegation (only `deactivation_epoch` is read). -/
structure Delegation where
  deactivation_epoch : ℕ
deriving DecidableEq, Repr

/-- The stake portion of a delegated account. -/
structure Stake where
  delegation : Delegation
deriving DecidableEq, Repr

/-- The stake-flags word (matched with `_` by the source, never read). -/
structure StakeFlags where
  bits : ℕ
deriving DecidableEq, Repr

/-- The decoded lifecycle state of a stake account. -/
inductive StakeStateV2 where
  | Uninitialized
  | Initialized (meta : Meta)
  | Stake (meta : Meta) (stake : Stake) (flags : StakeFlags)
  | RewardsPool
deriving DecidableEq, Repr

/-- Modelled from the spec: the `ACTIVE_STAKE_EPOCH_BOUND` sentinel lives in
the repository's `constants` module, which is not among the provided sources;
the spec's "deactivation sentinel" is the distinguished epoch value meaning
"currently active, not yet deactivating", standardly `u64::MAX`.  The stake
logic only ever compares `deactivation_epoch` to it for equality. -/
def ACTIVE_STAKE_EPOCH_BOUND : ℕ := U64_MAX

/-- A fetched on-chain account, as `stake.rs` reads it: owner program,
raw data bytes, lamport balance. -/
structure RpcAccount where
  owner : Pubkey
  data : List ℕ
  lamports : ℕ
deriving DecidableEq, Repr

/-- Failures of the RPC boundary (`get_account`, `get_epoch_info`,
`get_signatures_for_address`, transaction submission): the address holds no
account, or a transport failure. -/
inductive RpcErr where
  | notFound
  | network (code : ℕ)
deriving DecidableEq, Repr

/-- `solana_stake_interface::program::id()`: an opaque constant pubkey. -/
def stake_program_id : Pubkey := 1

/-- Epoch info returned by `get_epoch_info` (only `.epoch` is read). -/
structure EpochInfo where
  epoch : ℕ
deriving DecidableEq, Repr

/-- One entry of `get_signatures_for_address`. -/
structure SigInfo where
  slot : ℕ
  signature : String
  err : Option String
  block_time : Option ℤ
deriving DecidableEq, Repr

/-- The distinct failure outcomes of the stake operations in `stake.rs`,
one constructor per `bail!`/propagated error, carrying the values the
source interpolates into its message. -/
inductive StakeErr where
  | rpc (e : RpcErr)
  | notOwnedByStakeProgram
  | deserializeFailed
  | alreadyDeactivating (deactivation_epoch : ℕ)
  | notAuthorizedStaker (staker : Pubkey)
  | initializedNotDelegated
  | invalidStateForDeactivation
  | notAuthorizedWithdrawer (withdrawer : Pubkey)
  | stillActive
  | coolingDown (current_epoch deactivation_epoch epochs_remaining : ℕ)
  | uninitialized
  | rewardsPool
  | insufficientBalance (have_sol : ℚ) (want_sol : F64)
deriving DecidableEq, Repr

/-- The program instructions built by the two mutating stake operations. -/
inductive Instruction where
  | deactivateStake (stake_pubkey authorized_pubkey : Pubkey)
  | withdraw (stake_pubkey withdrawer_pubkey recipient : Pubkey) (lamports : ℕ)
deriving DecidableEq, Repr

/-- The state-validation `match` of `process_deactivate_stake_account`
(`stake.rs` lines 128-150): a delegated account must not already be
deactivating, and the caller must be the authorized staker; `Initialized`
gets its own message, every other state the catch-all. -/
def deactivate_validate (stake_state : StakeStateV2) (ctx_pubkey : Pubkey) :
    Except StakeErr Unit :=
  match stake_state with
  | .Stake meta stake _ =>
    if stake.delegation.deactivation_epoch ≠ ACTIVE_STAKE_EPOCH_BOUND then
      .error (.alreadyDeactivating stake.delegation.deactivation_epoch)
    else if meta.authorized.staker ≠ ctx_pubkey then
      .error (.notAuthorizedStaker meta.authorized.staker)
    else .ok ()
  | .Initialized _ => .error .initializedNotDelegated
  | .Uninitialized => .error .invalidStateForDeactivation
  | .RewardsPool => .error .invalidStateForDeactivation

/-- `process_deactivate_stake_account` (`stake.rs` lines 115-166).
`getAccount` is the result of `ctx.rpc().get_account(stake_pubkey)`,
`decode` stands for `bincode::deserialize`, and `sendTx` for
`build_and_send_tx` (blockhash fetch + sign + submit), each an external
collaborator passed in explicitly. -/
def process_deactivate_stake_account
    (getAccount : Except RpcErr RpcAccount)
    (decode : List ℕ → Option StakeStateV2)
    (ctx_pubkey : Pubkey)
    (sendTx : List Instruction → Except RpcErr Signature)
    (stake_pubkey : Pubkey) : Except StakeErr Signature :=
  match getAccount with
  | .error e => .error (.rpc e)
  | .ok account =>
    if account.owner ≠ stake_program_id then .error .notOwnedByStakeProgram
    else
      match decode account.data with
      | none => .error .deserializeFailed
      | some stake_state =>
        match deactivate_validate stake_state ctx_pubkey with
        | .error e => .error e
        | .ok _ =>
          match sendTx [Instruction.deactivateStake stake_pubkey ctx_pubkey] with
          | .error e => .error (.rpc e)
          | .ok signature => .ok signature

/-- The state-validation `match` of `process_withdraw_stake` (`stake.rs`
lines 185-227): the caller must be the authorized withdrawer (checked for
both `Stake` and `Initialized`); a delegated account must not still be
active, and `get_epoch_info` is consulted (only in the deactivating branch)
to require `current_epoch > deactivation_epoch`; `Uninitialized` and
`RewardsPool` are denied unconditionally. -/
def withdraw_validate (stake_state : StakeStateV2) (ctx_pubkey : Pubkey)
    (getEpochInfo : Except RpcErr EpochInfo) : Except StakeErr Unit :=
  match stake_state with
  | .Stake meta stake _ =>
    if meta.authorized.withdrawer ≠ ctx_pubkey then
      .error (.notAuthorizedWithdrawer meta.authorized.withdrawer)
    else if stake.delegation.deactivation_epoch = ACTIVE_STAKE_EPOCH_BOUND then
      .error .stillActive
    else
      match getEpochInfo with
      | .error e => .error (.rpc e)
      | .ok epoch_info =>
        if epoch_info.epoch ≤ stake.delegation.deactivation_epoch then
          .error (.coolingDown epoch_info.epoch
            stake.delegation.deactivation_epoch
            (stake.delegation.deactivation_epoch - epoch_info.epoch))
        else .ok ()
  | .Initialized meta =>
    if meta.authorized.withdrawer ≠ ctx_pubkey then
      .error (.notAuthorizedWithdrawer meta.authorized.withdrawer)
    else .ok ()
  | .Uninitialized => .error .uninitialized
  | .RewardsPool => .error .rewardsPool

/-- The tail of `process_withdraw_stake` after validation (`stake.rs` lines
229-247): the balance check (last of all checks), then the `withdraw`
instruction is built and submitted.  The insufficient-balance message
reports the available balance via `lamports_to_sol` and the requested
display amount. -/
def withdraw_finish (account : RpcAccount) (ctx_pubkey : Pubkey)
    (sendTx : List Instruction → Except RpcErr Signature)
    (stake_pubkey recipient : Pubkey) (amount_sol : F64) :
    Except StakeErr Signature :=
  let amount_lamports := sol_to_lamports amount_sol
  if account.lamports < amount_lamports then
    .error (.insufficientBalance (lamports_to_sol account.lamports) amount_sol)
  else
    match sendTx [Instruction.withdraw stake_pubkey ctx_pubkey recipient
        amount_lamports] with
    | .error e => .error (.rpc e)
    | .ok signature => .ok signature

/-- `process_withdraw_stake` (`stake.rs` lines 168-259): convert the display
amount (done first in the source, a pure step folded here into
`withdraw_finish`), fetch the account, check ownership, decode, validate
state/authorization/epochs, then check the balance and submit. -/
def process_withdraw_stake
    (getAccount : Except RpcErr RpcAccount)
    (decode : List ℕ → Option StakeStateV2)
    (getEpochInfo : Except RpcErr EpochInfo)
    (ctx_pubkey : Pubkey)
    (sendTx : List Instruction → Except RpcErr Signature)
    (stake_pubkey recipient : Pubkey) (amount_sol : F64) :
    Except StakeErr Signature :=
  match getAccount with
  | .error e => .error (.rpc e)
  | .ok account =>
    if account.owner ≠ stake_program_id then .error .notOwnedByStakeProgram
    else
      match decode account.data with
      | none => .error .deserializeFailed
      | some stake_state =>
        match withdraw_validate stake_state ctx_pubkey getEpochInfo with
        | .error e => .error e
        | .ok _ =>
          withdraw_finish account ctx_pubkey sendTx stake_pubkey recipient
            amount_sol

/-- `process_stake_history` (`stake.rs` lines 261-332): fetch the account,
check stake-program ownership, then fetch the signatures; an empty list is a
valid result (no table is printed), otherwise the newest 20 entries are
listed. -/
def process_stake_history
    (getAccount : Except RpcErr RpcAccount)
    (getSignatures : Except RpcErr (List SigInfo)) :
    Except StakeErr (List SigInfo) :=
  match getAccount with
  | .error e => .error (.rpc e)
  | .ok account =>
    if account.owner ≠ stake_program_id then .error .notOwnedByStakeProgram
    else
      match getSignatures with
      | .error e => .error (.rpc e)
      | .ok signatures =>
        if signatures.isEmpty then .ok []
        else .ok (signatures.take 20)

/-! ## Helper lemmas relating the executable integer arithmetic of the
`F64` model to the rational value `F64.val`. -/

lemma two_zpow_pos (e : ℤ) : (0 : ℚ) < 2 ^ e :=
  zpow_pos (by norm_num) e

lemma val_finite (m e : ℤ) : (F64.finite m e).val = (m : ℚ) * 2 ^ e := rfl

lemma leZero_finite_iff (m e : ℤ) :
    (F64.finite m e).leZero = true ↔ (F64.finite m e).val ≤ 0 := by
  have h2 := two_zpow_pos e
  simp only [F64.leZero, val_finite, decide_eq_true_eq]
  constructor
  · intro hm
    have : (m : ℚ) ≤ 0 := by exact_mod_cast hm
    nlinarith
  · intro hv
    by_contra hm
    push_neg at hm
    have : (0 : ℚ) < (m : ℚ) := by exact_mod_cast hm
    nlinarith

lemma mulLPS_val (m e : ℤ) :
    (F64.mulLPS (.finite m e)).val =
      (F64.finite m e).val * (LAMPORTS_PER_SOL : ℚ) := by
  simp only [F64.mulLPS, val_finite, LAMPORTS_PER_SOL]
  push_cast
  rw [zpow_add₀ (by norm_num : (2 : ℚ) ≠ 0)]
  norm_num
  ring

lemma zpow_neg_natCast (n : ℕ) :
    (2 : ℚ) ^ (-(n : ℤ)) = (((2 : ℕ) ^ n : ℕ) : ℚ)⁻¹ := by
  rw [zpow_neg]
  push_cast
  rw [zpow_natCast]

lemma gtU64MaxF_finite_iff (m e : ℤ) :
    (F64.finite m e).gtU64MaxF = true ↔
      (18446744073709551616 : ℚ) < (F64.finite m e).val := by
  simp only [F64.gtU64MaxF, val_finite]
  rcases le_or_lt 0 e with he | he
  · rw [if_pos he]
    obtain ⟨n, rfl⟩ : ∃ n : ℕ, e = (n : ℤ) := ⟨e.toNat, (Int.toNat_of_nonneg he).symm⟩
    rw [zpow_natCast]
    simp only [decide_eq_true_eq, Int.toNat_natCast]
    constructor
    · intro h
      exact_mod_cast h
    · intro h
      exact_mod_cast h
  · obtain ⟨n, rfl⟩ : ∃ n : ℕ, e = -(n : ℤ) := ⟨(-e).toNat, by omega⟩
    rw [if_neg (by omega)]
    rw [zpow_neg_natCast n]
    simp only [neg_neg, Int.toNat_natCast, decide_eq_true_eq]
    have hb : (0 : ℚ) < (((2 : ℕ) ^ n : ℕ) : ℚ) := by positivity
    rw [← div_eq_mul_inv, lt_div_iff₀ hb]
    constructor
    · intro h
      exact_mod_cast h
    · intro h
      exact_mod_cast h

lemma dyadicFloor_eq (m e : ℤ) :
    F64.dyadicFloor m e = ⌊(F64.finite m e).val⌋ := by
  simp only [F64.dyadicFloor, val_finite]
  rcases le_or_lt 0 e with he | he
  · rw [if_pos he]
    obtain ⟨n, rfl⟩ : ∃ n : ℕ, e = (n : ℤ) := ⟨e.toNat, (Int.toNat_of_nonneg he).symm⟩
    rw [zpow_natCast]
    simp only [Int.toNat_natCast]
    rw [show (m : ℚ) * 2 ^ n = ((m * 2 ^ n : ℤ) : ℚ) by push_cast; ring]
    rw [Int.floor_intCast]
  · obtain ⟨n, rfl⟩ : ∃ n : ℕ, e = -(n : ℤ) := ⟨(-e).toNat, by omega⟩
    rw [if_neg (by omega)]
    rw [zpow_neg_natCast n, ← div_eq_mul_inv]
    simp only [neg_neg, Int.toNat_natCast]
    rw [Rat.floor_intCast_div_natCast m (2 ^ n)]
    push_cast
    rfl

lemma five_not_dvd_two_pow (k : ℕ) : ¬ (5 : ℤ) ∣ 2 ^ k := by
  intro h
  have hp : Prime (5 : ℤ) := by norm_num
  have := hp.dvd_of_dvd_pow h
  norm_num at this

/-- No finite dyadic value scales by `LAMPORTS_PER_SOL` to exactly `2 ^ 64`:
the right side has no factor `5`, the left always does. -/
lemma val_mulLPS_ne_two_pow_64 (m e : ℤ) :
    (F64.finite m e).val * (LAMPORTS_PER_SOL : ℚ) ≠ 18446744073709551616 := by
  intro h
  rw [val_finite] at h
  simp only [LAMPORTS_PER_SOL] at h
  rcases le_or_lt 0 e with he | he
  · obtain ⟨n, rfl⟩ : ∃ n : ℕ, e = (n : ℤ) := ⟨e.toNat, (Int.toNat_of_nonneg he).symm⟩
    rw [zpow_natCast] at h
    have h' : m * 2 ^ n * 1000000000 = 18446744073709551616 := by exact_mod_cast h
    have h5 : (5 : ℤ) ∣ 18446744073709551616 :=
      ⟨m * 2 ^ n * 200000000, by linarith⟩
    rw [show (18446744073709551616 : ℤ) = 2 ^ 64 by norm_num] at h5
    exact five_not_dvd_two_pow 64 h5
  · obtain ⟨n, rfl⟩ : ∃ n : ℕ, e = -(n : ℤ) := ⟨(-e).toNat, by omega⟩
    rw [zpow_neg_natCast n, ← div_eq_mul_inv] at h
    have hb : (0 : ℚ) < (((2 : ℕ) ^ n : ℕ) : ℚ) := by positivity
    rw [div_mul_eq_mul_div, div_eq_iff (ne_of_gt hb)] at h
    have h' : m * 1000000000 = 18446744073709551616 * 2 ^ n := by
      exact_mod_cast h
    have h5 : (5 : ℤ) ∣ 18446744073709551616 * 2 ^ n :=
      ⟨m * 200000000, by linarith⟩
    rw [show (18446744073709551616 : ℤ) * 2 ^ n = 2 ^ (64 + n)
      by rw [pow_add]; norm_num] at h5
    exact five_not_dvd_two_pow (64 + n) h5

lemma val_finite_pos (m e : ℤ) (hm : 0 < m) : 0 < (F64.finite m e).val := by
  rw [val_finite]
  have h2 := two_zpow_pos e
  have : (0 : ℚ) < (m : ℚ) := by exact_mod_cast hm
  positivity

lemma pos_of_val_finite_pos (m e : ℤ) (h : 0 < (F64.finite m e).val) : 0 < m := by
  by_contra hm
  push_neg at hm
  have := (leZero_finite_iff m e).1 (by simp [F64.leZero, hm])
  linarith

lemma sol_to_lamports_finite_nonpos (m e : ℤ) (hm : m ≤ 0) :
    sol_to_lamports (.finite m e) = 0 := by
  simp only [sol_to_lamports, F64.mulLPS, F64.toU64Sat]
  rw [if_pos (by nlinarith : m * 5 ^ 9 ≤ 0)]

lemma sol_to_lamports_finite_pos (m e : ℤ) (hm : 0 < m) :
    sol_to_lamports (.finite m e) =
      min (⌊(F64.finite m e).val * (LAMPORTS_PER_SOL : ℚ)⌋.toNat) U64_MAX := by
  simp only [sol_to_lamports, F64.mulLPS, F64.toU64Sat]
  rw [if_neg (by nlinarith : ¬ m * 5 ^ 9 ≤ 0)]
  rw [dyadicFloor_eq]
  rw [show (F64.finite (m * 5 ^ 9) (e + 9)).val =
    (F64.finite m e).val * (LAMPORTS_PER_SOL : ℚ) from mulLPS_val m e]

/-! ## Amount-conversion claims -/

/-- Claim C4: for every input string, `SolAmount::from_str` (the
display-to-atomic conversion entry point) deterministically rejects a parsed
value that is zero or negative, not finite, or whose scaled atomic result
would exceed the unsigned 64-bit range (the scaled value reaches `2 ^ 64`),
and accepts exactly the remaining positive finite values. -/
theorem toAtomic_accepts_exactly_positive_finite_in_range
    (parse : String → Option F64) (s : String) (v : F64)
    (hne : rustTrim s ≠ "")
    (hp : parse (rustTrim s) = some v) :
    (SolAmount.from_str parse s = .ok v ↔
      v.isFinite = true ∧ 0 < v.val ∧
        v.val * (LAMPORTS_PER_SOL : ℚ) < 18446744073709551616) ∧
    (v.leZero = true → SolAmount.from_str parse s = .error .nonPositive) ∧
    (v.leZero = false → v.isFinite = false →
      SolAmount.from_str parse s = .error .notFinite) ∧
    (v.leZero = false → v.isFinite = true → v.mulLPS.gtU64MaxF = true →
      SolAmount.from_str parse s = .error .overflow) := by
  simp only [SolAmount.from_str, if_neg hne, hp]
  cases v with
  | nan =>
    simp [F64.leZero, F64.isFinite, F64.mulLPS, F64.gtU64MaxF]
  | inf neg =>
    cases neg <;> simp [F64.leZero, F64.isFinite, F64.mulLPS, F64.gtU64MaxF]
  | finite m e =>
    rcases le_or_lt m 0 with hm | hm
    · have hv : (F64.finite m e).val ≤ 0 :=
        (leZero_finite_iff m e).1 (by simp [F64.leZero, hm])
      simp [F64.leZero, hm, F64.isFinite, not_lt.mpr hv]
    · have hv : 0 < (F64.finite m e).val := val_finite_pos m e hm
      have hlz : (F64.finite m e).leZero = false := by
        simp only [F64.leZero, decide_eq_false_iff_not]
        omega
      cases hg : (F64.mulLPS (.finite m e)).gtU64MaxF with
      | true =>
        have hgt : (18446744073709551616 : ℚ) <
            (F64.finite m e).val * (LAMPORTS_PER_SOL : ℚ) := by
          have := (gtU64MaxF_finite_iff (m * 5 ^ 9) (e + 9)).1 hg
          rwa [show (F64.finite (m * 5 ^ 9) (e + 9)).val =
            (F64.finite m e).val * (LAMPORTS_PER_SOL : ℚ) from mulLPS_val m e] at this
        simp [hlz, F64.isFinite, hg, not_lt.mpr hgt.le]
      | false =>
        have hle : (F64.finite m e).val * (LAMPORTS_PER_SOL : ℚ) ≤
            18446744073709551616 := by
          have hg' : (F64.finite (m * 5 ^ 9) (e + 9)).gtU64MaxF = false := hg
          have := (gtU64MaxF_finite_iff (m * 5 ^ 9) (e + 9)).not.1 (by rw [hg']; simp)
          rw [show (F64.finite (m * 5 ^ 9) (e + 9)).val =
            (F64.finite m e).val * (LAMPORTS_PER_SOL : ℚ) from mulLPS_val m e] at this
          exact not_lt.mp this
        have hlt : (F64.finite m e).val * (LAMPORTS_PER_SOL : ℚ) <
            18446744073709551616 :=
          lt_of_le_of_ne hle (val_mulLPS_ne_two_pow_64 m e)
        simp [hlz, F64.isFinite, hg, hv, hlt]

/-- Witness for C4 at the concrete input `"1"` parsing to the value `1.0`. -/
theorem toAtomic_accepts_exactly_positive_finite_in_range_witness :
    SolAmount.from_str (fun _ => some (.finite 1 0)) "1" = .ok (.finite 1 0) :=
  (toAtomic_accepts_exactly_positive_finite_in_range
      (fun _ => some (.finite 1 0)) "1" (.finite 1 0) (by decide) rfl).1.mpr
    ⟨rfl, by norm_num [F64.val], by norm_num [F64.val, LAMPORTS_PER_SOL]⟩

/-- Claim C5: for every positive finite display amount whose atomic
representation fits in 64 bits, `sol_to_lamports` is the product with
`LAMPORTS_PER_SOL` truncated toward zero (the floor, not a rounding), and
the round trip through `lamports_to_sol` recovers the amount within one
atomic unit of truncation error: it never overshoots, and undershoots by
less than `1 / LAMPORTS_PER_SOL`. -/
theorem toAtomic_truncates_and_round_trips (m e : ℤ)
    (hpos : 0 < (F64.finite m e).val)
    (hbound : (F64.finite m e).val * (LAMPORTS_PER_SOL : ℚ) ≤ (U64_MAX : ℚ)) :
    sol_to_lamports (.finite m e) =
      (⌊(F64.finite m e).val * (LAMPORTS_PER_SOL : ℚ)⌋).toNat ∧
    (F64.finite m e).val - 1 / (LAMPORTS_PER_SOL : ℚ) <
      lamports_to_sol (sol_to_lamports (.finite m e)) ∧
    lamports_to_sol (sol_to_lamports (.finite m e)) ≤ (F64.finite m e).val := by
  have hm : 0 < m := pos_of_val_finite_pos m e hpos
  have hLq : (0 : ℚ) < (LAMPORTS_PER_SOL : ℚ) := by norm_num [LAMPORTS_PER_SOL]
  set q : ℚ := (F64.finite m e).val with hq
  set L : ℚ := q * (LAMPORTS_PER_SOL : ℚ) with hL
  have hLpos : 0 < L := by positivity
  have hfl_nonneg : 0 ≤ ⌊L⌋ := Int.floor_nonneg.mpr hLpos.le
  have hfl_le : ⌊L⌋ ≤ (U64_MAX : ℤ) := by
    have := Int.floor_le_floor hbound
    rwa [Int.floor_natCast] at this
  have heq : sol_to_lamports (.finite m e) = (⌊L⌋).toNat := by
    rw [sol_to_lamports_finite_pos m e hm, ← hq, ← hL]
    exact min_eq_left (by omega)
  have hcast : (((⌊L⌋).toNat : ℕ) : ℚ) = ((⌊L⌋ : ℤ) : ℚ) := by
    exact_mod_cast Int.toNat_of_nonneg hfl_nonneg
  refine ⟨heq, ?_, ?_⟩
  · rw [heq, lamports_to_sol, hcast]
    have hfloor : L - 1 < (⌊L⌋ : ℚ) := Int.sub_one_lt_floor L
    rw [show q - 1 / (LAMPORTS_PER_SOL : ℚ) = (L - 1) / (LAMPORTS_PER_SOL : ℚ) by
      rw [hL]; field_simp]
    exact (div_lt_div_iff_of_pos_right hLq).mpr hfloor
  · rw [heq, lamports_to_sol, hcast]
    have hfloor : (⌊L⌋ : ℚ) ≤ L := Int.floor_le L
    calc ((⌊L⌋ : ℤ) : ℚ) / (LAMPORTS_PER_SOL : ℚ)
        ≤ L / (LAMPORTS_PER_SOL : ℚ) := (div_le_div_iff_of_pos_right hLq).mpr hfloor
      _ = q := by rw [hL]; field_simp

/-- Witness for C5 at the amount `1.5` SOL (`m = 3`, `e = -1`). -/
theorem toAtomic_truncates_and_round_trips_witness :
    sol_to_lamports (.finite 3 (-1)) =
      (⌊(F64.finite 3 (-1)).val * (LAMPORTS_PER_SOL : ℚ)⌋).toNat ∧
    (F64.finite 3 (-1)).val - 1 / (LAMPORTS_PER_SOL : ℚ) <
      lamports_to_sol (sol_to_lamports (.finite 3 (-1))) ∧
    lamports_to_sol (sol_to_lamports (.finite 3 (-1))) ≤ (F64.finite 3 (-1)).val :=
  toAtomic_truncates_and_round_trips 3 (-1)
    (by rw [val_finite]; norm_num)
    (by rw [val_finite]; norm_num [LAMPORTS_PER_SOL, U64_MAX])

/-- Claim C8: the optional amount parser maps empty (or whitespace-only)
input to the valid `none` value, while an explicitly entered zero is a
distinct case: it is rejected as non-positive and in particular does not
produce the `none` value. -/
theorem optional_amount_empty_is_none_zero_distinct
    (parse : String → Option F64) (s : String) :
    (rustTrim s = "" → OptionalSolAmount.from_str parse s = .ok none) ∧
    (∀ v : F64, rustTrim s ≠ "" → parse (rustTrim s) = some v →
      v.leZero = true →
      OptionalSolAmount.from_str parse s = .error .nonPositive ∧
      OptionalSolAmount.from_str parse s ≠ .ok none) := by
  constructor
  · intro h
    simp [OptionalSolAmount.from_str, h]
  · intro v hne hp hz
    simp [OptionalSolAmount.from_str, if_neg hne, hp, hz]

/-- Witness for C8: the explicit zero `"0"` is rejected, not treated as
`none`. -/
theorem optional_amount_empty_is_none_zero_distinct_witness :
    OptionalSolAmount.from_str (fun _ => some (.finite 0 0)) "0" =
      .error .nonPositive ∧
    OptionalSolAmount.from_str (fun _ => some (.finite 0 0)) "0" ≠ .ok none :=
  (optional_amount_empty_is_none_zero_distinct
      (fun _ => some (.finite 0 0)) "0").2 (.finite 0 0) (by decide) rfl (by decide)

/-- Claim C9: the raw conversion `sol_to_lamports` is total and never fails:
NaN, negative infinity, and non-positive finite values map to `0`; positive
infinity and any finite value whose scaled product exceeds `u64::MAX` map to
`u64::MAX`; and `parse_sol_amount` maps empty input to `0` and converts any
parsed value with no positivity or overflow check, so an unvalidated amount
silently becomes a saturated lamport count. -/
theorem sol_to_lamports_total_saturating (parse : String → Option F64) :
    sol_to_lamports .nan = 0 ∧
    sol_to_lamports (.inf true) = 0 ∧
    (∀ m e : ℤ, (F64.finite m e).val ≤ 0 → sol_to_lamports (.finite m e) = 0) ∧
    sol_to_lamports (.inf false) = U64_MAX ∧
    (∀ m e : ℤ, (U64_MAX : ℚ) < (F64.finite m e).val * (LAMPORTS_PER_SOL : ℚ) →
      sol_to_lamports (.finite m e) = U64_MAX) ∧
    (∀ s, rustTrim s = "" → parse_sol_amount parse s = .ok 0) ∧
    (∀ s v, rustTrim s ≠ "" → parse (rustTrim s) = some v →
      parse_sol_amount parse s = .ok (sol_to_lamports v)) := by
  refine ⟨rfl, rfl, ?_, rfl, ?_, ?_, ?_⟩
  · intro m e hv
    have hm : m ≤ 0 := by
      by_contra hm
      push_neg at hm
      have := val_finite_pos m e hm
      linarith
    exact sol_to_lamports_finite_nonpos m e hm
  · intro m e hgt
    have hUq : (0 : ℚ) ≤ (U64_MAX : ℚ) := by positivity
    have hm : 0 < m := by
      refine pos_of_val_finite_pos m e ?_
      by_contra hv
      push_neg at hv
      have hL : (0 : ℚ) < (LAMPORTS_PER_SOL : ℚ) := by norm_num [LAMPORTS_PER_SOL]
      nlinarith
    rw [sol_to_lamports_finite_pos m e hm]
    have hfl : (U64_MAX : ℤ) ≤ ⌊(F64.finite m e).val * (LAMPORTS_PER_SOL : ℚ)⌋ := by
      rw [Int.le_floor]
      push_cast
      exact hgt.le
    refine min_eq_right ?_
    omega
  · intro s h
    simp [parse_sol_amount, h]
  · intro s v hne hp
    simp [parse_sol_amount, if_neg hne, hp]

/-- Witness for C9: a negative value saturates to `0` and parsing it through
`parse_sol_amount` silently yields that `0`. -/
theorem sol_to_lamports_total_saturating_witness :
    parse_sol_amount (fun _ => some (.finite (-2) 0)) "-2" =
      .ok (sol_to_lamports (.finite (-2) 0)) :=
  (sol_to_lamports_total_saturating (fun _ => some (.finite (-2) 0))).2.2.2.2.2.2
    "-2" (.finite (-2) 0) (by decide) rfl

/-! ## Stake-operation claims -/

/-- Claim C1: the Deactivate validator approves exactly a `Stake` (delegated)
account whose `deactivation_epoch` equals the active sentinel and whose
authorized staker is the caller; it denies `AlreadyDeactivating` whenever
`deactivation_epoch` differs from the sentinel, regardless of the caller;
it denies `NotAuthorized` when the caller is not the authorized staker; and
it gives a wrong-state denial for `Initialized`, `Uninitialized`, and
`RewardsPool` accounts. -/
theorem deactivate_validator_rules (caller : Pubkey) :
    (∀ st : StakeStateV2, deactivate_validate st caller = .ok () ↔
      ∃ meta stake flags, st = .Stake meta stake flags ∧
        stake.delegation.deactivation_epoch = ACTIVE_STAKE_EPOCH_BOUND ∧
        meta.authorized.staker = caller) ∧
    (∀ meta stake flags,
      stake.delegation.deactivation_epoch ≠ ACTIVE_STAKE_EPOCH_BOUND →
      deactivate_validate (.Stake meta stake flags) caller =
        .error (.alreadyDeactivating stake.delegation.deactivation_epoch)) ∧
    (∀ meta stake flags,
      stake.delegation.deactivation_epoch = ACTIVE_STAKE_EPOCH_BOUND →
      meta.authorized.staker ≠ caller →
      deactivate_validate (.Stake meta stake flags) caller =
        .error (.notAuthorizedStaker meta.authorized.staker)) ∧
    (∀ meta, deactivate_validate (.Initialized meta) caller =
      .error .initializedNotDelegated) ∧
    deactivate_validate .Uninitialized caller =
      .error .invalidStateForDeactivation ∧
    deactivate_validate .RewardsPool caller =
      .error .invalidStateForDeactivation := by
  refine ⟨?_, ?_, ?_, fun _ => rfl, rfl, rfl⟩
  · intro st
    cases st with
    | Uninitialized => simp [deactivate_validate]
    | Initialized meta => simp [deactivate_validate]
    | RewardsPool => simp [deactivate_validate]
    | Stake meta stake flags =>
      by_cases h1 : stake.delegation.deactivation_epoch = ACTIVE_STAKE_EPOCH_BOUND
      · by_cases h2 : meta.authorized.staker = caller
        · constructor
          · intro _
            exact ⟨meta, stake, flags, rfl, h1, h2⟩
          · intro _
            simp [deactivate_validate, h1, h2]
        · simp [deactivate_validate, h1, h2]
      · simp [deactivate_validate, h1]
  · intro meta stake flags h1
    simp [deactivate_validate, h1]
  · intro meta stake flags h1 h2
    simp [deactivate_validate, h1, h2]

/-- Witness for C1: a delegated account already deactivating at epoch 5 is
denied `AlreadyDeactivating` for an arbitrary caller. -/
theorem deactivate_validator_rules_witness :
    deactivate_validate (.Stake ⟨⟨1, 2⟩⟩ ⟨⟨5⟩⟩ ⟨0⟩) 9 =
      .error (.alreadyDeactivating 5) :=
  (deactivate_validator_rules 9).2.1 ⟨⟨1, 2⟩⟩ ⟨⟨5⟩⟩ ⟨0⟩ (by decide)

/-- Claim C2: a Withdraw on a `Stake` (delegated) account by the authorized
withdrawer is denied `StillActive` when `deactivation_epoch` equals the
active sentinel; otherwise, when `current_epoch <= deactivation_epoch` it is
denied `CoolingDown` reporting `epochs_remaining = deactivation_epoch -
current_epoch`; and only when `current_epoch > deactivation_epoch` does the
request proceed to the remaining validation (`withdraw_finish`). -/
theorem withdraw_epoch_gate
    (meta : Meta) (stake : Stake) (flags : StakeFlags) (caller : Pubkey)
    (getEpochInfo : Except RpcErr EpochInfo) (account : RpcAccount)
    (decode : List ℕ → Option StakeStateV2)
    (sendTx : List Instruction → Except RpcErr Signature)
    (stake_pubkey recipient : Pubkey) (amount_sol : F64)
    (hown : account.owner = stake_program_id)
    (hdec : decode account.data = some (.Stake meta stake flags))
    (hauth : meta.authorized.withdrawer = caller) :
    (stake.delegation.deactivation_epoch = ACTIVE_STAKE_EPOCH_BOUND →
      process_withdraw_stake (.ok account) decode getEpochInfo caller sendTx
        stake_pubkey recipient amount_sol = .error .stillActive) ∧
    (∀ c, stake.delegation.deactivation_epoch ≠ ACTIVE_STAKE_EPOCH_BOUND →
      getEpochInfo = .ok ⟨c⟩ → c ≤ stake.delegation.deactivation_epoch →
      process_withdraw_stake (.ok account) decode getEpochInfo caller sendTx
        stake_pubkey recipient amount_sol =
        .error (.coolingDown c stake.delegation.deactivation_epoch
          (stake.delegation.deactivation_epoch - c))) ∧
    (∀ c, stake.delegation.deactivation_epoch ≠ ACTIVE_STAKE_EPOCH_BOUND →
      getEpochInfo = .ok ⟨c⟩ → stake.delegation.deactivation_epoch < c →
      process_withdraw_stake (.ok account) decode getEpochInfo caller sendTx
        stake_pubkey recipient amount_sol =
        withdraw_finish account caller sendTx stake_pubkey recipient
          amount_sol) := by
  refine ⟨?_, ?_, ?_⟩
  · intro h
    simp [process_withdraw_stake, withdraw_validate, hown, hdec, hauth, h]
  · intro c hne hgei hle
    simp [process_withdraw_stake, withdraw_validate, hown, hdec, hauth, hne,
      hgei, hle]
  · intro c hne hgei hgt
    simp [process_withdraw_stake, withdraw_validate, hown, hdec, hauth, hne,
      hgei, Nat.not_le.mpr hgt]

/-- Witness for C2: deactivation epoch 5, current epoch 3 — denied
`CoolingDown` with 2 epochs remaining. -/
theorem withdraw_epoch_gate_witness :
    process_withdraw_stake (.ok ⟨stake_program_id, [], 100⟩)
      (fun _ => some (.Stake ⟨⟨1, 2⟩⟩ ⟨⟨5⟩⟩ ⟨0⟩)) (.ok ⟨3⟩) 2 (fun _ => .ok 0)
      7 8 (.finite 1 0) = .error (.coolingDown 3 5 2) :=
  (withdraw_epoch_gate ⟨⟨1, 2⟩⟩ ⟨⟨5⟩⟩ ⟨0⟩ 2 (.ok ⟨3⟩) ⟨stake_program_id, [], 100⟩
    (fun _ => some (.Stake ⟨⟨1, 2⟩⟩ ⟨⟨5⟩⟩ ⟨0⟩)) (fun _ => .ok 0) 7 8
    (.finite 1 0) rfl rfl rfl).2.1 3 (by decide) rfl (by decide)

/-- Claim C3: a Withdraw that passes the state, authorization and epoch
checks — for an `Initialized` account, or for a `Stake` account that is fully
cooled down — is denied `InsufficientBalance` when the requested atomic
amount exceeds the lamport balance, with the denial reporting both the
available balance and the requested amount; and the balance check comes
last: an `Uninitialized` account with the same excessive request is denied
with its state error instead. -/
theorem withdraw_insufficient_balance_checked_last
    (account : RpcAccount) (decode : List ℕ → Option StakeStateV2)
    (getEpochInfo : Except RpcErr EpochInfo) (caller : Pubkey)
    (sendTx : List Instruction → Except RpcErr Signature)
    (stake_pubkey recipient : Pubkey) (amount_sol : F64)
    (hown : account.owner = stake_program_id)
    (hbal : account.lamports < sol_to_lamports amount_sol) :
    (∀ meta, decode account.data = some (.Initialized meta) →
      meta.authorized.withdrawer = caller →
      process_withdraw_stake (.ok account) decode getEpochInfo caller sendTx
        stake_pubkey recipient amount_sol =
        .error (.insufficientBalance (lamports_to_sol account.lamports)
          amount_sol)) ∧
    (∀ meta stake flags c,
      decode account.data = some (.Stake meta stake flags) →
      meta.authorized.withdrawer = caller →
      stake.delegation.deactivation_epoch ≠ ACTIVE_STAKE_EPOCH_BOUND →
      getEpochInfo = .ok ⟨c⟩ → stake.delegation.deactivation_epoch < c →
      process_withdraw_stake (.ok account) decode getEpochInfo caller sendTx
        stake_pubkey recipient amount_sol =
        .error (.insufficientBalance (lamports_to_sol account.lamports)
          amount_sol)) ∧
    (decode account.data = some .Uninitialized →
      process_withdraw_stake (.ok account) decode getEpochInfo caller sendTx
        stake_pubkey recipient amount_sol = .error .uninitialized) := by
  refine ⟨?_, ?_, ?_⟩
  · intro meta hdec hauth
    simp [process_withdraw_stake, withdraw_validate, withdraw_finish, hown,
      hdec, hauth, hbal]
  · intro meta stake flags c hdec hauth hne hgei hgt
    simp [process_withdraw_stake, withdraw_validate, withdraw_finish, hown,
      hdec, hauth, hne, hgei, Nat.not_le.mpr hgt, hbal]
  · intro hdec
    simp [process_withdraw_stake, withdraw_validate, hown, hdec]

/-- Witness for C3: an `Initialized` account with 100 lamports and a
requested withdrawal of 1 SOL is denied `InsufficientBalance` reporting
both values. -/
theorem withdraw_insufficient_balance_checked_last_witness :
    process_withdraw_stake (.ok ⟨stake_program_id, [], 100⟩)
      (fun _ => some (.Initialized ⟨⟨1, 2⟩⟩)) (.ok ⟨3⟩) 2 (fun _ => .ok 0)
      7 8 (.finite 1 0) =
      .error (.insufficientBalance (lamports_to_sol 100) (.finite 1 0)) :=
  (withdraw_insufficient_balance_checked_last ⟨stake_program_id, [], 100⟩
    (fun _ => some (.Initialized ⟨⟨1, 2⟩⟩)) (.ok ⟨3⟩) 2 (fun _ => .ok 0) 7 8
    (.finite 1 0) rfl (by decide)).1 ⟨⟨1, 2⟩⟩ rfl rfl

/-- Claim C6: for the stake operations, a fetch failure (not-found or
transport) propagates before any validation runs — the result does not
depend on the decoder, the caller, or the submitter; a fetched account not
owned by the stake program fails with the ownership error; and a payload
that does not decode fails with the deserialisation error — each before any
state-transition rule is evaluated. -/
theorem fetch_and_integrity_failures_precede_validation :
    (∀ e decode caller sendTx stake_pubkey,
      process_deactivate_stake_account (.error e) decode caller sendTx
        stake_pubkey = .error (.rpc e)) ∧
    (∀ e decode getEpochInfo caller sendTx stake_pubkey recipient amount_sol,
      process_withdraw_stake (.error e) decode getEpochInfo caller sendTx
        stake_pubkey recipient amount_sol = .error (.rpc e)) ∧
    (∀ e getSignatures,
      process_stake_history (.error e) getSignatures = .error (.rpc e)) ∧
    (∀ account getSignatures, account.owner ≠ stake_program_id →
      process_stake_history (.ok account) getSignatures =
        .error .notOwnedByStakeProgram) ∧
    (∀ account decode caller sendTx stake_pubkey,
      account.owner ≠ stake_program_id →
      process_deactivate_stake_account (.ok account) decode caller sendTx
        stake_pubkey = .error .notOwnedByStakeProgram) ∧
    (∀ account decode getEpochInfo caller sendTx stake_pubkey recipient
        amount_sol, account.owner ≠ stake_program_id →
      process_withdraw_stake (.ok account) decode getEpochInfo caller sendTx
        stake_pubkey recipient amount_sol = .error .notOwnedByStakeProgram) ∧
    (∀ account decode caller sendTx stake_pubkey,
      account.owner = stake_program_id → decode account.data = none →
      process_deactivate_stake_account (.ok account) decode caller sendTx
        stake_pubkey = .error .deserializeFailed) ∧
    (∀ account decode getEpochInfo caller sendTx stake_pubkey recipient
        amount_sol, account.owner = stake_program_id →
      decode account.data = none →
      process_withdraw_stake (.ok account) decode getEpochInfo caller sendTx
        stake_pubkey recipient amount_sol = .error .deserializeFailed) := by
  refine ⟨fun _ _ _ _ _ => rfl, fun _ _ _ _ _ _ _ _ => rfl, fun _ _ => rfl,
    ?_, ?_, ?_, ?_, ?_⟩
  · intro account getSignatures h
    simp [process_stake_history, h]
  · intro account decode caller sendTx stake_pubkey h
    simp [process_deactivate_stake_account, h]
  · intro account decode getEpochInfo caller sendTx stake_pubkey recipient
      amount_sol h
    simp [process_withdraw_stake, h]
  · intro account decode caller sendTx stake_pubkey hown hdec
    simp [process_deactivate_stake_account, hown, hdec]
  · intro account decode getEpochInfo caller sendTx stake_pubkey recipient
      amount_sol hown hdec
    simp [process_withdraw_stake, hown, hdec]

/-- Witness for C6: an account owned by a different program is rejected with
the ownership error before decoding is even attempted. -/
theorem fetch_and_integrity_failures_precede_validation_witness :
    process_deactivate_stake_account (.ok ⟨0, [], 0⟩) (fun _ => none) 1
      (fun _ => .ok 0) 2 = .error .notOwnedByStakeProgram :=
  fetch_and_integrity_failures_precede_validation.2.2.2.2.1 ⟨0, [], 0⟩
    (fun _ => none) 1 (fun _ => .ok 0) 2 (by decide)

/-- Claim C7: any denial happens before the transaction builder/submitter is
consulted: if a deactivate or withdraw request fails even under a submitter
that always succeeds, then it fails with the very same error under every
submitter — so no instruction is submitted and no on-chain side effect can
occur; in particular a Withdraw against an `Uninitialized` account is denied
for every submitter. -/
theorem denial_precludes_submission :
    (∀ getAccount decode caller stake_pubkey e,
      process_deactivate_stake_account getAccount decode caller
        (fun _ => .ok 0) stake_pubkey = .error e →
      ∀ sendTx, process_deactivate_stake_account getAccount decode caller
        sendTx stake_pubkey = .error e) ∧
    (∀ getAccount decode getEpochInfo caller stake_pubkey recipient amount_sol
        e, process_withdraw_stake getAccount decode getEpochInfo caller
        (fun _ => .ok 0) stake_pubkey recipient amount_sol = .error e →
      ∀ sendTx, process_withdraw_stake getAccount decode getEpochInfo caller
        sendTx stake_pubkey recipient amount_sol = .error e) ∧
    (∀ account decode getEpochInfo caller stake_pubkey recipient amount_sol,
      account.owner = stake_program_id →
      decode account.data = some .Uninitialized →
      ∀ sendTx, process_withdraw_stake (.ok account) decode getEpochInfo
        caller sendTx stake_pubkey recipient amount_sol =
        .error .uninitialized) := by
  refine ⟨?_, ?_, ?_⟩
  · intro getAccount decode caller stake_pubkey e h sendTx
    cases getAccount with
    | error e' => exact h
    | ok account =>
      simp only [process_deactivate_stake_account] at h ⊢
      by_cases ho : account.owner ≠ stake_program_id
      · rw [if_pos ho] at h ⊢
        exact h
      · rw [if_neg ho] at h ⊢
        cases hdec : decode account.data with
        | none =>
          simp only [hdec] at h ⊢
          exact h
        | some st =>
          simp only [hdec] at h ⊢
          cases hval : deactivate_validate st caller with
          | error e'' =>
            simp only [hval] at h ⊢
            exact h
          | ok u =>
            cases u
            simp only [hval] at h
            simp at h
  · intro getAccount decode getEpochInfo caller stake_pubkey recipient
      amount_sol e h sendTx
    cases getAccount with
    | error e' => exact h
    | ok account =>
      simp only [process_withdraw_stake, withdraw_finish] at h ⊢
      by_cases ho : account.owner ≠ stake_program_id
      · rw [if_pos ho] at h ⊢
        exact h
      · rw [if_neg ho] at h ⊢
        cases hdec : decode account.data with
        | none =>
          simp only [hdec] at h ⊢
          exact h
        | some st =>
          simp only [hdec] at h ⊢
          cases hval : withdraw_validate st caller getEpochInfo with
          | error e'' =>
            simp only [hval] at h ⊢
            exact h
          | ok u =>
            cases u
            simp only [hval] at h ⊢
            by_cases hb : account.lamports < sol_to_lamports amount_sol
            · rw [if_pos hb] at h ⊢
              exact h
            · rw [if_neg hb] at h
              simp at h
  · intro account decode getEpochInfo caller stake_pubkey recipient amount_sol
      hown hdec sendTx
    simp [process_withdraw_stake, withdraw_validate, hown, hdec]

/-- Witness for C7: a Withdraw against an `Uninitialized` account is denied
even under a submitter that always fails, showing the submitter is never
consulted. -/
theorem denial_precludes_submission_witness :
    process_withdraw_stake (.ok ⟨stake_program_id, [], 0⟩)
      (fun _ => some .Uninitialized) (.ok ⟨0⟩) 1 (fun _ => .error .notFound)
      2 3 (.finite 1 0) = .error .uninitialized :=
  denial_precludes_submission.2.2 ⟨stake_program_id, [], 0⟩
    (fun _ => some .Uninitialized) (.ok ⟨0⟩) 1 2 3 (.finite 1 0) rfl rfl
    (fun _ => .error .notFound)

/-- Claim C10: the history operation fails with the ownership error whenever
the fetched account is not owned by the stake program — for every possible
signature-fetch result, so the check precedes any signature fetch — and a
successful history listing only ever arises from an account owned by the
stake program. -/
theorem history_requires_stake_program_ownership :
    (∀ account : RpcAccount, account.owner ≠ stake_program_id →
      ∀ getSignatures, process_stake_history (.ok account) getSignatures =
        .error .notOwnedByStakeProgram) ∧
    (∀ getAccount getSignatures l,
      process_stake_history getAccount getSignatures = .ok l →
      ∃ account, getAccount = .ok account ∧
        account.owner = stake_program_id) := by
  constructor
  · intro account h getSignatures
    simp [process_stake_history, h]
  · intro getAccount getSignatures l h
    cases getAccount with
    | error e => simp [process_stake_history] at h
    | ok account =>
      by_cases ho : account.owner ≠ stake_program_id
      · simp only [process_stake_history, if_pos ho] at h
        exact absurd h (by simp)
      · exact ⟨account, rfl, not_not.mp ho⟩

/-- Witness for C10: a foreign-owned account yields the ownership error for
an arbitrary signature-fetch result. -/
theorem history_requires_stake_program_ownership_witness :
    process_stake_history (.ok ⟨0, [], 5⟩) (.ok []) =
      .error .notOwnedByStakeProgram :=
  history_requires_stake_program_ownership.1 ⟨0, [], 5⟩ (by decide) (.ok [])

end Scilla
